import Mathlib

/-!
# Verification of the OpenPNM `Base2`/`Domain`/`ModelMixin2` core

A shallow embedding of `src/openpnm/core/_base2.py`: the dict-backed
attribute store (`Base2.__setitem__`, `Base2.__getitem__`, `Base2._count`),
the domain-overlay addressing (`Domain.__getitem__`, `Domain.__setitem__`)
and the model registry (`ModelMixin2.add_model`, `run_model`,
`regenerate_models`).

Modelling conventions:
* Keys and names are `List Char`, so Python's `str.split`, `str.startswith`
  and `in` have exact counterparts (`splitFirst`, `splitAll`,
  `List.isPrefixOf`, membership).
* A numpy array is modelled by its leading axis: `Arr.bools xs` for boolean
  dtype and `Arr.nums xs` for every other dtype, where a `none` entry is NaN
  (trailing dimensions play no role in the claims under study and are
  dropped; `np.array(v, ndmin=1)` conversions are the identity here since
  callers pass arrays).
* Python exceptions are the `Err` type, named after the specification's
  taxonomy: the `ValueError` from `key.split('.', 1)` unpacking and the
  `Exception('All keys must start with ...')` are `Err.addressing`, the
  `Exception('Provided array is wrong length ...')` and numpy scatter
  length mismatches are `Err.shape`, a `KeyError` on the data dict is
  `Err.keyNotFound`, a `KeyError` on the models dict is `Err.modelNotFound`.
  `Err.typeErr` stands for the `TypeError`s numpy raises on degenerate
  indexing (dict used as index, `np.ones(None)`-style shapes).
* Python's bounded recursion (`RecursionError`) is modelled by a fuel
  parameter on `Base2.__getitem__` and its derived operations; exhausted
  fuel is `Err.recursionLimit`.
* On an error the model returns the pre-call store; every theorem below
  observes either a successful result or the error value, never the store
  after an exception.
* Modelled from the spec: the auxiliary mixins (`ParserMixin`, `ParamMixin`,
  `LabelMixin`) and `ModelsDict` are not under `src/`; per the spec they are
  auxiliary bookkeeping with no effect on item access, so `super()` item
  calls from `Domain` reach `Base2` directly, and `ModelsDict` is an
  insertion-ordered mapping like a Python dict (association list with
  in-place update).
-/

/-- Keys and object names, as character lists (Python `str`). -/
abbrev Key := List Char

/-- Python `s.split(sep, 1)` when a separator is present: the part before the
first separator and the remainder; `none` when the separator does not occur
(where Python's 2-variable unpacking raises `ValueError`). -/
def splitFirst (sep : Char) : List Char → Option (Key × Key)
  | [] => none
  | c :: rest =>
    if c = sep then some ([], rest)
    else
      match splitFirst sep rest with
      | none => none
      | some (a, b) => some (c :: a, b)

/-- Python `s.split(sep)`: all separated segments, in order. -/
def splitAll (sep : Char) : List Char → List Key
  | [] => [[]]
  | c :: rest =>
    if c = sep then [] :: splitAll sep rest
    else
      match splitAll sep rest with
      | [] => [[c]]
      | s :: ss => (c :: s) :: ss

/-- Python `s.split(sep)[-1]`: the segment after the last separator. -/
def lastSeg (sep : Char) (l : List Char) : Key :=
  (splitAll sep l).getLastD []

/-- The element prefixes and count-exempt keys of `_base2.py`. -/
def poreChars : Key := ['p', 'o', 'r', 'e']

def throatChars : Key := ['t', 'h', 'r', 'o', 'a', 't']

def coordsK : Key := ['p', 'o', 'r', 'e', '.', 'c', 'o', 'o', 'r', 'd', 's']

def connsK : Key := ['t', 'h', 'r', 'o', 'a', 't', '.', 'c', 'o', 'n', 'n', 's']

/-- A stored numpy array, abstracted to its leading axis.  `Arr.bools` is a
boolean-dtype array; `Arr.nums` is any other dtype with `none` for NaN. -/
inductive Arr where
  | bools (xs : List Bool)
  | nums (xs : List (Option Int))
deriving DecidableEq, Repr

/-- `value.shape[0]`. -/
def lenA : Arr → Nat
  | .bools xs => xs.length
  | .nums xs => xs.length

/-- `value.dtype == bool`. -/
def isBoolA : Arr → Bool
  | .bools _ => true
  | .nums _ => false

/-- `np.ones((n,), dtype=value.dtype) * value` for a length-1 `value`
(the scalar broadcast-fill of `Base2.__setitem__`). -/
def broadcastFill (n : Nat) : Arr → Arr
  | .bools xs => .bools (List.replicate n (xs.headD false))
  | .nums xs => .nums (List.replicate n (xs.headD none))

mutual
/-- The values accepted by `__setitem__`: `None`, an array (scalars having
been through `np.array(value, ndmin=1)`), or a Python dict to decompose. -/
inductive Value where
  | noneV
  | arrV (a : Arr)
  | dictV (kvs : ValList)
/-- A Python dict value's items, in insertion order. -/
inductive ValList where
  | nil
  | cons (k : Key) (v : Value) (rest : ValList)
end

/-- The store: the `dict` contents of a `Base2` object (insertion-ordered
association list), together with its assigned `name`. -/
structure Store where
  data : List (Key × Arr)
  name : Key
deriving DecidableEq

/-- Exact dict lookup, `dict.__getitem__` / `key in self.keys()`. -/
def lookupA {β : Type} : List (Key × β) → Key → Option β
  | [], _ => none
  | (k', b) :: rest, k => if k' = k then some b else lookupA rest k

/-- `dict.update({key: value})` / `dict.__setitem__`: replace the first
binding of `k` in place, else append (Python dicts keep the original
position of an existing key). -/
def updateA {β : Type} : List (Key × β) → Key → β → List (Key × β)
  | [], k, b => [(k, b)]
  | (k', b') :: rest, k, b =>
    if k' = k then (k, b) :: rest else (k', b') :: updateA rest k b

/-- `Base2._count(element)`: the leading length of the first stored array
whose key starts with `element`, else `None`. -/
def countD (d : List (Key × Arr)) (element : Key) : Option Nat :=
  match d with
  | [] => none
  | (k, a) :: rest =>
    if element.isPrefixOf k then some (lenA a) else countD rest element

/-- The exception taxonomy (see the module docstring for the mapping from
Python exception sites). -/
inductive Err where
  | addressing (k : Key)
  | shape (k : Key)
  | keyNotFound (k : Key)
  | modelNotFound (k : Key)
  | typeErr
  | recursionLimit
deriving DecidableEq, Repr

instance {ε α : Type} [DecidableEq ε] [DecidableEq α] : DecidableEq (Except ε α) :=
  fun x y =>
    match x, y with
    | .ok a, .ok b =>
      if h : a = b then isTrue (by rw [h])
      else isFalse (by intro hh; cases hh; exact h rfl)
    | .error e, .error f =>
      if h : e = f then isTrue (by rw [h])
      else isFalse (by intro hh; cases hh; exact h rfl)
    | .ok _, .error _ => isFalse (by intro hh; cases hh)
    | .error _, .ok _ => isFalse (by intro hh; cases hh)

mutual
/-- `Base2.__setitem__(key, value)`.  Source order: `None` no-op;
`key.split('.', 1)` unpack; dict decomposition; element-name check; exempt
keys stored unchecked; then the count/broadcast/shape logic. -/
def setitemB (s : Store) (key : Key) (v : Value) : Except Err Store :=
  match v with
  | .noneV => .ok s
  | .dictV kvs =>
    match splitFirst '.' key with
    | none => .error (.addressing key)
    | some _ => setitemBList s key kvs
  | .arrV a =>
    match splitFirst '.' key with
    | none => .error (.addressing key)
    | some (element, _prop) =>
      if element = poreChars ∨ element = throatChars then
        if key = coordsK ∨ key = connsK then
          .ok ⟨updateA s.data key a, s.name⟩
        else
          match countD s.data element with
          | none => .ok ⟨updateA s.data key a, s.name⟩
          | some n =>
            if lenA a = 1 then
              .ok ⟨updateA s.data key (broadcastFill n a), s.name⟩
            else if lenA a = n then
              .ok ⟨updateA s.data key a, s.name⟩
            else .error (.shape key)
      else .error (.addressing key)
/-- The dict-decomposition loop of `Base2.__setitem__`: iterate the items
in order, aborting on the first exception. -/
def setitemBList (s : Store) (key : Key) (kvs : ValList) : Except Err Store :=
  match kvs with
  | .nil => .ok s
  | .cons k v rest =>
    match setitemB s (key ++ '.' :: k) v with
    | .error e => .error e
    | .ok s' => setitemBList s' key rest
end

/-- The result of a read: a single array, or the reconstructed mapping of a
nested group. -/
inductive GotVal where
  | one (a : Arr)
  | grp (kvs : List (Key × Arr))
deriving DecidableEq

/-- `Base2.__getitem__(key)` for string keys.  On a miss with
`key.split('.')[1] == self.name` it writes the two all-true self-labels
(`np.ones(self.Np/Nt, dtype=bool)`, where `np.ones(None)`'s degenerate 0-dim
result is modelled as `Err.typeErr`) and retries, consuming fuel; otherwise
it collects the stored keys extending `key + '.'`.  Returns the possibly
vivified store alongside the value. -/
def getitemB : Nat → Store → Key → Except Err (GotVal × Store)
  | 0, _, _ => .error .recursionLimit
  | fuel + 1, s, key =>
    match splitFirst '.' key with
    | none => .error (.addressing key)
    | some _ =>
      match lookupA s.data key with
      | some a => .ok (.one a, s)
      | none =>
        if (splitAll '.' key).getD 1 [] = s.name then
          match countD s.data poreChars with
          | none => .error .typeErr
          | some np =>
            match setitemB s (poreChars ++ '.' :: s.name)
                (.arrV (.bools (List.replicate np true))) with
            | .error e => .error e
            | .ok s1 =>
              match countD s1.data throatChars with
              | none => .error .typeErr
              | some nt =>
                match setitemB s1 (throatChars ++ '.' :: s1.name)
                    (.arrV (.bools (List.replicate nt true))) with
                | .error e => .error e
                | .ok s2 => getitemB fuel s2 key
        else
          match s.data.filter (fun kv => (key ++ ['.']).isPrefixOf kv.1) with
          | [] => .error (.keyNotFound key)
          | kv :: kvs => .ok (.grp (kv :: kvs), s)

/-- `(xs.filter id).length`: how many positions a boolean mask selects. -/
def trueCount (ms : List Bool) : Nat := (ms.filter id).length

/-- Boolean-mask gather `xs[ms]`. -/
def maskSel {α : Type} : List Bool → List α → List α
  | m :: ms, x :: xs => if m then x :: maskSel ms xs else maskSel ms xs
  | _, _ => []

/-- Boolean-mask scatter: write the entries of `src` into the `true`
positions of `ms` inside `xs` (caller guarantees `src` has one entry per
`true`). -/
def maskWrite {α : Type} : List Bool → List α → List α → List α
  | m :: ms, x :: xs, src =>
    if m then src.headD x :: maskWrite ms xs (src.drop 1)
    else x :: maskWrite ms xs src
  | _, xs, _ => xs

/-- `vals[locs]` for a boolean mask `locs` (numpy raises on a non-boolean
or wrong-length index in the situations reachable here). -/
def gatherA (vals locs : Arr) : Except Err Arr :=
  match locs with
  | .bools ms =>
    match vals with
    | .bools xs =>
      if xs.length = ms.length then .ok (.bools (maskSel ms xs)) else .error .typeErr
    | .nums xs =>
      if xs.length = ms.length then .ok (.nums (maskSel ms xs)) else .error .typeErr
  | .nums _ => .error .typeErr

/-- The source entries for a masked assignment into a non-bool array:
`None` casts to NaN, booleans cast to 0/1, a length-1 array broadcasts, a
length-`tc` array is used verbatim, anything else is the numpy length
mismatch (`Err.shape`). -/
def srcNums (tc : Nat) : Value → Except Err (List (Option Int))
  | .noneV => .ok (List.replicate tc none)
  | .dictV _ => .error .typeErr
  | .arrV a =>
    let xs : List (Option Int) :=
      match a with
      | .nums ys => ys
      | .bools bs => bs.map (fun b => some (if b then (1 : Int) else 0))
    if xs.length = 1 then .ok (List.replicate tc (xs.headD none))
    else if xs.length = tc then .ok xs
    else .error (.shape [])

/-- The source entries for a masked assignment into a boolean array:
`None` casts to `False`, NaN and nonzero numbers cast to `True`. -/
def srcBools (tc : Nat) : Value → Except Err (List Bool)
  | .noneV => .ok (List.replicate tc false)
  | .dictV _ => .error .typeErr
  | .arrV a =>
    let xs : List Bool :=
      match a with
      | .bools bs => bs
      | .nums ys => ys.map (fun y => match y with | none => true | some z => z ≠ 0)
    if xs.length = 1 then .ok (List.replicate tc (xs.headD false))
    else if xs.length = tc then .ok xs
    else .error (.shape [])

/-- In-place masked assignment `target[locs] = v`. -/
def scatterA (target locs : Arr) (v : Value) : Except Err Arr :=
  match locs with
  | .bools ms =>
    match target with
    | .nums xs =>
      if xs.length = ms.length then
        match srcNums (trueCount ms) v with
        | .error e => .error e
        | .ok src => .ok (.nums (maskWrite ms xs src))
      else .error .typeErr
    | .bools xs =>
      if xs.length = ms.length then
        match srcBools (trueCount ms) v with
        | .error e => .error e
        | .ok src => .ok (.bools (maskWrite ms xs src))
      else .error .typeErr
  | .nums _ => .error .typeErr

/-- `Domain.__getitem__(key)`: on an `@`-key, resolve
`element, prop = key.split('@')[0].split('.', 1)` and
`domain = key.split('@')[1].split('.')[-1]`, fetch the label and the full
array through `Base2.__getitem__`, and gather. -/
def getitemDom (fuel : Nat) (s : Store) (key : Key) : Except Err (GotVal × Store) :=
  if '@' ∈ key then
    match splitFirst '.' ((splitAll '@' key).getD 0 []) with
    | none => .error (.addressing key)
    | some (element, prop) =>
      let dm := lastSeg '.' ((splitAll '@' key).getD 1 [])
      match getitemB fuel s (element ++ '.' :: dm) with
      | .error e => .error e
      | .ok (locsV, s1) =>
        match getitemB fuel s1 (element ++ '.' :: prop) with
        | .error e => .error e
        | .ok (valsV, s2) =>
          match locsV, valsV with
          | .one locs, .one vals =>
            match gatherA vals locs with
            | .error e => .error e
            | .ok a => .ok (.one a, s2)
          | _, _ => .error .typeErr
  else getitemB fuel s key

/-- `Domain.__setitem__(key, value)`: on an `@`-key, fetch the label, try
the full array; on success scatter into it and write it back through
`__setitem__`; on a `KeyError` auto-vivify
`np.zeros([self.Np, *value.shape[1:]], dtype=bool)` (times NaN for a
non-bool value), store it through `Base2.__setitem__`, then scatter the
value in place. -/
def setitemDom (fuel : Nat) (s : Store) (key : Key) (v : Value) : Except Err Store :=
  if '@' ∈ key then
    match splitFirst '.' ((splitAll '@' key).getD 0 []) with
    | none => .error (.addressing key)
    | some (element, prop) =>
      let dm := lastSeg '.' ((splitAll '@' key).getD 1 [])
      match getitemB fuel s (element ++ '.' :: dm) with
      | .error e => .error e
      | .ok (locsV, s1) =>
        match getitemDom fuel s1 (element ++ '.' :: prop) with
        | .ok (.grp _, _) => .error .typeErr
        | .ok (.one vals, s2) =>
          match locsV with
          | .grp _ => .error .typeErr
          | .one locs =>
            match scatterA vals locs v with
            | .error e => .error e
            | .ok newvals => setitemB s2 (element ++ '.' :: prop) (.arrV newvals)
        | .error (.keyNotFound _) =>
          match countD s1.data poreChars with
          | none => .error .typeErr
          | some np =>
            let temp : Arr :=
              match v with
              | .arrV (.bools _) => .bools (List.replicate np false)
              | _ => .nums (List.replicate np none)
            match setitemB s1 (element ++ '.' :: prop) (.arrV temp) with
            | .error e => .error e
            | .ok s2 =>
              match getitemDom fuel s2 (element ++ '.' :: prop) with
              | .ok (.one cur, s3) =>
                match locsV with
                | .grp _ => .error .typeErr
                | .one locs =>
                  match scatterA cur locs v with
                  | .error e => .error e
                  | .ok newvals =>
                    .ok ⟨updateA s3.data (element ++ '.' :: prop) newvals, s3.name⟩
              | .ok (.grp _, _) => .error .typeErr
              | .error e => .error e
        | .error e => .error e
  else setitemB s key v

/-- A registered model: the opaque callable (receiving the store and, in
domain mode, the `domain` keyword) with its registration-time keyword
arguments baked in, plus the inert `regen_mode` tag. -/
structure MEntry where
  model : Store → Option Key → Arr
  regen_mode : Key

/-- A `Domain` object with its `ModelsDict`: the data store plus the
insertion-ordered model registry. -/
structure DStore where
  s : Store
  models : List (Key × MEntry)

/-- `ModelMixin2.add_model(propname, model, domain, regen_mode)`:
the qualified name appends `'@' + domain.split('.')[-1]` when a domain is
given; re-registration replaces the entry wholesale, keeping its position. -/
def add_model (d : DStore) (propname : Key) (m : Store → Option Key → Arr)
    (domain : Option Key) (mode : Key) : DStore :=
  let q : Key :=
    match domain with
    | none => propname
    | some dd => propname ++ '@' :: lastSeg '.' dd
  { d with models := updateA d.models q ⟨m, mode⟩ }

/-- `ModelMixin2.run_model` with an explicit `domain` (source lines
360-373): normalize the names, look up `propname@domain`, call the model,
allocate `np.nan*np.ones([self.Np, ...])` if the full array is absent, then
scatter the result through the label mask.  Returns the executed qualified
name as a one-element trace. -/
def runModelDom (fuel : Nat) (d : DStore) (propname domain : Key) :
    Except Err (DStore × List Key) :=
  let dm := lastSeg '.' domain
  match splitFirst '.' ((splitAll '@' propname).getD 0 []) with
  | none => .error (.addressing propname)
  | some (element, prop) =>
    let pname : Key := element ++ '.' :: prop
    let qname : Key := pname ++ '@' :: dm
    match lookupA d.models qname with
    | none => .error (.modelNotFound qname)
    | some e =>
      let vals := e.model d.s (some (element ++ '.' :: dm))
      let step1 : Except Err Store :=
        if lookupA d.s.data pname = none then
          match countD d.s.data poreChars with
          | none => .error .typeErr
          | some np => setitemDom fuel d.s pname (.arrV (.nums (List.replicate np none)))
        else .ok d.s
      match step1 with
      | .error er => .error er
      | .ok sA =>
        match getitemDom fuel sA pname with
        | .error er => .error er
        | .ok (.grp _, _) => .error .typeErr
        | .ok (.one full, sB) =>
          match getitemDom fuel sB (element ++ '.' :: dm) with
          | .error er => .error er
          | .ok (.grp _, _) => .error .typeErr
          | .ok (.one locs, sC) =>
            match scatterA full locs (.arrV vals) with
            | .error er => .error er
            | .ok newfull =>
              .ok ({ d with s := ⟨updateA sC.data pname newfull, sC.name⟩ }, [qname])

/-- The `domain is None and '@' in propname` loop of `run_model` (source
lines 345-349): for each registered key extending `propname`, recursively
run with that key's `split('@')[-1]` as domain.  `ks` is the snapshot of
`self.models.keys()`. -/
def fanOut (fuel : Nat) (d : DStore) (propname : Key) :
    List Key → Except Err (DStore × List Key)
  | [] => .ok (d, [])
  | k :: rest =>
    if propname.isPrefixOf k then
      match runModelDom fuel d propname (lastSeg '@' k) with
      | .error e => .error e
      | .ok (d1, t1) =>
        match fanOut fuel d1 propname rest with
        | .error e => .error e
        | .ok (d2, t2) => .ok (d2, t1 ++ t2)
    else fanOut fuel d propname rest

/-- `ModelMixin2.run_model(propname, domain)` (source lines 343-373). -/
def run_model (fuel : Nat) (d : DStore) (propname : Key) (domain : Option Key) :
    Except Err (DStore × List Key) :=
  match domain with
  | some dom => runModelDom fuel d propname dom
  | none =>
    if '@' ∈ propname then fanOut fuel d propname (d.models.map Prod.fst)
    else
      match splitFirst '.' propname with
      | none => .error (.addressing propname)
      | some _ =>
        match lookupA d.models propname with
        | none => .error (.modelNotFound propname)
        | some e =>
          let vals := e.model d.s none
          match setitemDom fuel d.s propname (.arrV vals) with
          | .error er => .error er
          | .ok s' => .ok ({ d with s := s' }, [propname])

/-- The body of `regenerate_models` over a snapshot of the registered keys. -/
def regenList (fuel : Nat) (d : DStore) : List Key → Except Err (DStore × List Key)
  | [] => .ok (d, [])
  | k :: rest =>
    match run_model fuel d k none with
    | .error e => .error e
    | .ok (d1, t1) =>
      match regenList fuel d1 rest with
      | .error e => .error e
      | .ok (d2, t2) => .ok (d2, t1 ++ t2)

/-- `ModelMixin2.regenerate_models()`: run every registered qualified name
in insertion order. -/
def regenerate_models (fuel : Nat) (d : DStore) : Except Err (DStore × List Key) :=
  regenList fuel d (d.models.map Prod.fst)

/-! ## General lemmas about the string and store primitives -/

theorem splitFirst_of_not_mem {c : Char} {l : List Char} (h : c ∉ l) :
    splitFirst c l = none := by
  induction l with
  | nil => rfl
  | cons x xs ih =>
    have hx : ¬(x = c) := fun hh => h (hh ▸ List.mem_cons_self x xs)
    have hxs : c ∉ xs := fun hh => h (List.mem_cons_of_mem x hh)
    simp [splitFirst, hx, ih hxs]

theorem not_mem_of_splitFirst {c : Char} {l : List Char}
    (h : splitFirst c l = none) : c ∉ l := by
  induction l with
  | nil => simp
  | cons x xs ih =>
    by_cases hx : x = c
    · simp [splitFirst, hx] at h
    · simp only [splitFirst, if_neg hx] at h
      cases hsf : splitFirst c xs with
      | none =>
        intro hm
        rcases List.mem_cons.mp hm with h1 | h2
        · exact hx h1.symm
        · exact ih hsf h2
      | some p => rw [hsf] at h; cases h

theorem splitFirst_append {c : Char} {a : List Char} (b : List Char) (h : c ∉ a) :
    splitFirst c (a ++ c :: b) = some (a, b) := by
  induction a with
  | nil => simp [splitFirst]
  | cons x xs ih =>
    have hx : ¬(x = c) := fun hh => h (hh ▸ List.mem_cons_self x xs)
    have hxs : c ∉ xs := fun hh => h (List.mem_cons_of_mem x hh)
    simp only [List.cons_append, splitFirst, if_neg hx, List.append_eq, ih hxs]

theorem splitFirst_join {c : Char} {l a b : List Char}
    (h : splitFirst c l = some (a, b)) : l = a ++ c :: b := by
  induction l generalizing a b with
  | nil => cases h
  | cons x xs ih =>
    by_cases hx : x = c
    · subst hx
      simp only [splitFirst, if_pos rfl] at h
      cases h; rfl
    · simp only [splitFirst, if_neg hx] at h
      cases hsf : splitFirst c xs with
      | none => rw [hsf] at h; cases h
      | some p =>
        obtain ⟨pa, pb⟩ := p
        rw [hsf] at h
        cases h
        simpa using ih hsf

theorem splitFirst_fst_not_mem {c : Char} {l a b : List Char}
    (h : splitFirst c l = some (a, b)) : c ∉ a := by
  induction l generalizing a b with
  | nil => cases h
  | cons x xs ih =>
    by_cases hx : x = c
    · subst hx
      simp only [splitFirst, if_pos rfl] at h
      cases h; simp
    · simp only [splitFirst, if_neg hx] at h
      cases hsf : splitFirst c xs with
      | none => rw [hsf] at h; cases h
      | some p =>
        obtain ⟨pa, pb⟩ := p
        rw [hsf] at h
        cases h
        intro hm
        rcases List.mem_cons.mp hm with h1 | h2
        · exact hx h1.symm
        · exact ih hsf h2

theorem splitAll_ne_nil {c : Char} {l : List Char} : splitAll c l ≠ [] := by
  cases l with
  | nil => simp [splitAll]
  | cons x xs =>
    by_cases hx : x = c
    · simp [splitAll, hx]
    · simp only [splitAll, if_neg hx]
      cases h : splitAll c xs <;> simp

theorem splitAll_eq_single {c : Char} {l : List Char} (h : c ∉ l) :
    splitAll c l = [l] := by
  induction l with
  | nil => rfl
  | cons x xs ih =>
    have hx : ¬(x = c) := fun hh => h (hh ▸ List.mem_cons_self x xs)
    have hxs : c ∉ xs := fun hh => h (List.mem_cons_of_mem x hh)
    simp [splitAll, hx, ih hxs]

theorem splitAll_append {c : Char} {a : List Char} (b : List Char) (h : c ∉ a) :
    splitAll c (a ++ c :: b) = a :: splitAll c b := by
  induction a with
  | nil => simp [splitAll]
  | cons x xs ih =>
    have hx : ¬(x = c) := fun hh => h (hh ▸ List.mem_cons_self x xs)
    have hxs : c ∉ xs := fun hh => h (List.mem_cons_of_mem x hh)
    rw [List.cons_append]
    simp only [splitAll, if_neg hx, ih hxs]

theorem lastSeg_of_not_mem {c : Char} {l : List Char} (h : c ∉ l) :
    lastSeg c l = l := by
  simp [lastSeg, splitAll_eq_single h]

theorem lastSeg_append {c : Char} {a : List Char} (b : List Char) (h : c ∉ a) :
    lastSeg c (a ++ c :: b) = lastSeg c b := by
  simp only [lastSeg, splitAll_append b h]
  cases hs : splitAll c b with
  | nil => exact absurd hs splitAll_ne_nil
  | cons y ys => simp

theorem lookupA_updateA_self {β : Type} {d : List (Key × β)} {k : Key} {b : β} :
    lookupA (updateA d k b) k = some b := by
  induction d with
  | nil => simp [updateA, lookupA]
  | cons kv rest ih =>
    obtain ⟨k', b'⟩ := kv
    by_cases hk : k' = k
    · simp [updateA, hk, lookupA]
    · simp [updateA, hk, lookupA, ih]

theorem lookupA_updateA_ne {β : Type} {d : List (Key × β)} {k k' : Key} {b : β}
    (h : k' ≠ k) : lookupA (updateA d k b) k' = lookupA d k' := by
  induction d with
  | nil => simp [updateA, lookupA, Ne.symm h]
  | cons kv rest ih =>
    obtain ⟨ka, ba⟩ := kv
    by_cases hk : ka = k
    · subst hk
      simp [updateA, lookupA, Ne.symm h]
    · simp only [updateA, if_neg hk, lookupA]
      by_cases hk' : ka = k'
      · simp [hk']
      · simp [hk', ih]

theorem lookupA_some_mem {β : Type} {d : List (Key × β)} {k : Key} {b : β}
    (h : lookupA d k = some b) : (k, b) ∈ d := by
  induction d with
  | nil => cases h
  | cons kv rest ih =>
    obtain ⟨ka, ba⟩ := kv
    by_cases hk : ka = k
    · subst hk
      simp only [lookupA, if_pos rfl] at h
      cases h
      exact List.mem_cons_self _ _
    · simp only [lookupA, if_neg hk] at h
      exact List.mem_cons_of_mem _ (ih h)

theorem updateA_of_lookupA_none {β : Type} {d : List (Key × β)} {k : Key} {b : β}
    (h : lookupA d k = none) : updateA d k b = d ++ [(k, b)] := by
  induction d with
  | nil => rfl
  | cons kv rest ih =>
    obtain ⟨ka, ba⟩ := kv
    by_cases hk : ka = k
    · simp [lookupA, hk] at h
    · simp only [lookupA, if_neg hk] at h
      simp [updateA, hk, ih h]

theorem mem_updateA {β : Type} {d : List (Key × β)} {k : Key} {b : β} {kv : Key × β}
    (h : kv ∈ updateA d k b) : kv = (k, b) ∨ kv ∈ d := by
  induction d with
  | nil =>
    simp only [updateA] at h
    rcases List.mem_cons.mp h with h1 | h1
    · exact Or.inl h1
    · cases h1
  | cons kv' rest ih =>
    obtain ⟨ka, ba⟩ := kv'
    by_cases hk : ka = k
    · simp only [updateA, if_pos hk] at h
      rcases List.mem_cons.mp h with h1 | h1
      · exact Or.inl h1
      · exact Or.inr (List.mem_cons_of_mem _ h1)
    · simp only [updateA, if_neg hk] at h
      rcases List.mem_cons.mp h with h1 | h1
      · exact Or.inr (h1 ▸ List.mem_cons_self _ _)
      · rcases ih h1 with h2 | h2
        · exact Or.inl h2
        · exact Or.inr (List.mem_cons_of_mem _ h2)

theorem countD_append_some {d d2 : List (Key × Arr)} {el : Key} {n : Nat}
    (h : countD d el = some n) : countD (d ++ d2) el = some n := by
  induction d with
  | nil => cases h
  | cons kv rest ih =>
    obtain ⟨k, a⟩ := kv
    by_cases hp : el.isPrefixOf k
    · simp only [countD, if_pos hp] at h
      simpa [countD, hp] using h
    · simp only [countD, if_neg hp] at h
      simpa [countD, hp] using ih h

theorem countD_append_none {d d2 : List (Key × Arr)} {el : Key}
    (h : countD d el = none) : countD (d ++ d2) el = countD d2 el := by
  induction d with
  | nil => rfl
  | cons kv rest ih =>
    obtain ⟨k, a⟩ := kv
    by_cases hp : el.isPrefixOf k
    · simp [countD, hp] at h
    · simp only [countD, if_neg hp] at h
      simpa [countD, hp] using ih h

theorem countD_none_forall {d : List (Key × Arr)} {el : Key}
    (h : countD d el = none) : ∀ kv ∈ d, el.isPrefixOf kv.1 = false := by
  induction d with
  | nil => intro kv hm; cases hm
  | cons kv0 rest ih =>
    obtain ⟨k, a⟩ := kv0
    by_cases hp : el.isPrefixOf k
    · simp [countD, hp] at h
    · simp only [countD, if_neg hp] at h
      intro kv hm
      rcases List.mem_cons.mp hm with h1 | h1
      · subst h1; exact Bool.eq_false_iff.mpr hp
      · exact ih h kv h1

theorem countD_ne_none_of_mem {d : List (Key × Arr)} {el : Key} {kv : Key × Arr}
    (hm : kv ∈ d) (hp : el.isPrefixOf kv.1 = true) : countD d el ≠ none := by
  intro h
  have := countD_none_forall h kv hm
  rw [hp] at this
  cases this

theorem countD_updateA_not_pref {d : List (Key × Arr)} {el k : Key} {b : Arr}
    (h : el.isPrefixOf k = false) : countD (updateA d k b) el = countD d el := by
  induction d with
  | nil => simp [updateA, countD, h]
  | cons kv rest ih =>
    obtain ⟨ka, ba⟩ := kv
    by_cases hk : ka = k
    · subst hk
      have hp : ¬(el.isPrefixOf ka = true) := by simp [h]
      simp [updateA, countD, h, hp]
    · by_cases hp : el.isPrefixOf ka
      · simp [updateA, hk, countD, hp]
      · simp [updateA, hk, countD, hp, ih]

theorem countD_updateA_pref_some {d : List (Key × Arr)} {el k : Key} {b : Arr} {n : Nat}
    (hp : el.isPrefixOf k = true) (hn : countD d el = some n) (hl : lenA b = n) :
    countD (updateA d k b) el = some n := by
  induction d with
  | nil => cases hn
  | cons kv rest ih =>
    obtain ⟨ka, ba⟩ := kv
    by_cases hk : ka = k
    · subst hk
      have hpa : el.isPrefixOf ka = true := hp
      simp only [countD, if_pos hpa] at hn
      simp [updateA, countD, hp, hl]
    · by_cases hpa : el.isPrefixOf ka
      · simp only [countD, if_pos hpa] at hn
        simp [updateA, hk, countD, hpa, hn]
      · simp only [countD, if_neg hpa] at hn
        simp [updateA, hk, countD, hpa, ih hn]

theorem countD_updateA_pref_none {d : List (Key × Arr)} {el k : Key} {b : Arr}
    (hp : el.isPrefixOf k = true) (hn : countD d el = none) :
    countD (updateA d k b) el = some (lenA b) := by
  induction d with
  | nil => simp [updateA, countD, hp]
  | cons kv rest ih =>
    obtain ⟨ka, ba⟩ := kv
    by_cases hpa : el.isPrefixOf ka
    · simp [countD, hpa] at hn
    · simp only [countD, if_neg hpa] at hn
      have hk : ka ≠ k := by
        intro hh
        subst hh
        rw [hp] at hpa
        exact hpa rfl
      simp [updateA, hk, countD, hpa, ih hn]

theorem isPrefixOf_append_self {a b : List Char} : a.isPrefixOf (a ++ b) = true := by
  induction a with
  | nil => simp [List.isPrefixOf]
  | cons x xs ih => simp [List.isPrefixOf, ih]

/-! ## Concrete scenario fixtures (the spec's 9-pore network and variants) -/

/-- The key `pore.x`. -/
def kPoreX : Key := ['p', 'o', 'r', 'e', '.', 'x']

/-- The key `pore.left`. -/
def kPoreLeft : Key := ['p', 'o', 'r', 'e', '.', 'l', 'e', 'f', 't']

/-- The key `pore.seed`. -/
def kPoreSeed : Key := ['p', 'o', 'r', 'e', '.', 's', 'e', 'e', 'd']

/-- The domain-qualified key `pore.seed@left`. -/
def kPoreSeedLeft : Key :=
  ['p', 'o', 'r', 'e', '.', 's', 'e', 'e', 'd', '@', 'l', 'e', 'f', 't']

/-- The name `net`. -/
def nameNet : Key := ['n', 'e', 't']

/-- The name `bob`. -/
def nameBob : Key := ['b', 'o', 'b']

/-- The key `pore.bob`. -/
def kPoreBob : Key := ['p', 'o', 'r', 'e', '.', 'b', 'o', 'b']

/-- The key `throat.bob`. -/
def kThroatBob : Key := ['t', 'h', 'r', 'o', 'a', 't', '.', 'b', 'o', 'b']

/-- The key `pore.bob.x`. -/
def kPoreBobX : Key := ['p', 'o', 'r', 'e', '.', 'b', 'o', 'b', '.', 'x']

/-- The malformed key `foo.x` (element prefix neither `pore` nor `throat`). -/
def kFooX : Key := ['f', 'o', 'o', '.', 'x']

/-- The dot-less key `foo`. -/
def kFoo : Key := ['f', 'o', 'o']

/-- A store named `net` with 9 pores (`pore.coords`), 2 throats
(`throat.conns`) and the label `pore.left` true on indices 0, 1, 2. -/
def sNet : Store :=
  ⟨[(coordsK, .nums (List.replicate 9 (some 0))),
    (connsK, .nums [some 0, some 1]),
    (kPoreLeft, .bools [true, true, true, false, false, false, false, false, false])],
   nameNet⟩

/-- A store named `bob` with 2 pores and 1 throat and no labels. -/
def sBob : Store :=
  ⟨[(coordsK, .nums [some 0, some 0]), (connsK, .nums [some 0])], nameBob⟩

/-! ## C8 (scalar broadcast) -/

/-- C8: for every store with an established count `n` for the element of a
non-exempt key, writing a length-1 array stores `List.replicate n x`
(length `n`, every entry the broadcast value), for both dtypes. -/
theorem c8_broadcast (s : Store) (key element pr : Key) (n : Nat)
    (hsplit : splitFirst '.' key = some (element, pr))
    (hel : element = poreChars ∨ element = throatChars)
    (hco : key ≠ coordsK) (hcn : key ≠ connsK)
    (hcount : countD s.data element = some n) :
    (∀ x : Option Int,
      setitemB s key (.arrV (.nums [x])) =
        .ok ⟨updateA s.data key (.nums (List.replicate n x)), s.name⟩) ∧
    (∀ b : Bool,
      setitemB s key (.arrV (.bools [b])) =
        .ok ⟨updateA s.data key (.bools (List.replicate n b)), s.name⟩) := by
  have hexempt : ¬(key = coordsK ∨ key = connsK) := by
    rintro (h | h)
    · exact hco h
    · exact hcn h
  constructor
  · intro x
    simp [setitemB, hsplit, hel, hexempt, hcount, lenA, broadcastFill]
  · intro b
    simp [setitemB, hsplit, hel, hexempt, hcount, lenA, broadcastFill]

/-- Witness for C8 at the 9-pore store: broadcasting the scalar 7 to
`pore.x` stores nine 7s. -/
theorem c8_witness :
    setitemB sNet kPoreX (.arrV (.nums [some 7])) =
      .ok ⟨updateA sNet.data kPoreX (.nums (List.replicate 9 (some 7))), sNet.name⟩ :=
  (c8_broadcast sNet kPoreX poreChars ['x'] 9 (by decide) (Or.inl rfl)
    (by decide) (by decide) (by decide)).1 (some 7)

/-! ## C9 (shape guard) -/

/-- C9: for every store with an established count `n` for the element of a
non-exempt key, writing an array whose leading length is neither 1 nor `n`
fails with the wrong-length error and performs no store update. -/
theorem c9_shape_guard (s : Store) (key element pr : Key) (n : Nat) (a : Arr)
    (hsplit : splitFirst '.' key = some (element, pr))
    (hel : element = poreChars ∨ element = throatChars)
    (hco : key ≠ coordsK) (hcn : key ≠ connsK)
    (hcount : countD s.data element = some n)
    (h1 : lenA a ≠ 1) (hn : lenA a ≠ n) :
    setitemB s key (.arrV a) = .error (.shape key) := by
  have hexempt : ¬(key = coordsK ∨ key = connsK) := by
    rintro (h | h)
    · exact hco h
    · exact hcn h
  simp [setitemB, hsplit, hel, hexempt, hcount, h1, hn]

/-- Witness for C9: a length-2 array for `pore.x` on the 9-pore store is
rejected with the shape error. -/
theorem c9_witness :
    setitemB sNet kPoreX (.arrV (.nums [some 7, some 8])) = .error (.shape kPoreX) :=
  c9_shape_guard sNet kPoreX poreChars ['x'] 9 (.nums [some 7, some 8]) (by decide)
    (Or.inl rfl) (by decide) (by decide) (by decide) (by decide) (by decide)

/-! ## C7 (malformed keys) -/

/-- C7 counterexample: reading the dotted key `foo.x` (element `foo`, not
`pore`/`throat`) fails with `KeyNotFoundError`, not `AddressingError` — the
read path of `Base2.__getitem__` performs no element validation. -/
theorem c7_counterexample :
    getitemB 5 sBob kFooX = .error (.keyNotFound kFooX) := by decide

/-- C7 amended: a dot-less key fails on read with `AddressingError`, and on
write for every non-`None` value; a dotted key with an invalid element
prefix fails on an array write with `AddressingError` (reads of such keys
fail, but with `KeyNotFoundError`, per the counterexample). -/
theorem c7_amended :
    (∀ (fuel : Nat) (s : Store) (key : Key), '.' ∉ key →
      getitemB (fuel + 1) s key = .error (.addressing key)) ∧
    (∀ (s : Store) (key : Key) (v : Value), '.' ∉ key → v ≠ .noneV →
      setitemB s key v = .error (.addressing key)) ∧
    (∀ (s : Store) (key element pr : Key) (a : Arr),
      splitFirst '.' key = some (element, pr) →
      element ≠ poreChars → element ≠ throatChars →
      setitemB s key (.arrV a) = .error (.addressing key)) := by
  refine ⟨?_, ?_, ?_⟩
  · intro fuel s key h
    simp [getitemB, splitFirst_of_not_mem h]
  · intro s key v h hv
    cases v with
    | noneV => exact absurd rfl hv
    | arrV a => simp [setitemB, splitFirst_of_not_mem h]
    | dictV kvs => simp [setitemB, splitFirst_of_not_mem h]
  · intro s key element pr a hsplit h1 h2
    have hel : ¬(element = poreChars ∨ element = throatChars) := by
      rintro (h | h)
      · exact h1 h
      · exact h2 h
    simp [setitemB, hsplit, hel]

/-- Witness for C7 amended, at the dot-less key `foo` and the bad-element
key `foo.x`. -/
theorem c7_witness :
    getitemB 3 sBob kFoo = .error (.addressing kFoo) ∧
    setitemB sBob kFoo (.arrV (.nums [some 1])) = .error (.addressing kFoo) ∧
    setitemB sBob kFooX (.arrV (.nums [some 1])) = .error (.addressing kFooX) :=
  ⟨c7_amended.1 2 sBob kFoo (by decide),
   c7_amended.2.1 sBob kFoo (.arrV (.nums [some 1])) (by decide) (by intro h; cases h),
   c7_amended.2.2 sBob kFooX ['f', 'o', 'o'] ['x'] (.nums [some 1]) (by decide)
     (by decide) (by decide)⟩

/-! ## C3 (None writes) -/

/-- C3 counterexample: on the 9-pore store, writing `None` through the
domain-qualified key `pore.seed@left` is not a no-op: `Domain.__setitem__`
does not check for `None`, so the write auto-vivifies `pore.seed` as a
full-length all-NaN array (and the subsequent masked assignment casts
`None` to NaN). -/
theorem c3_counterexample :
    lookupA sNet.data kPoreSeed = none ∧
    setitemDom 10 sNet kPoreSeedLeft .noneV =
      .ok ⟨sNet.data ++ [(kPoreSeed, .nums (List.replicate 9 none))], nameNet⟩ := by
  constructor
  · decide
  · decide

/-- C3 amended: writing `None` through any key containing no `@` is a
silent no-op (only `Base2.__setitem__` checks for `None`; the `@` overlay
path of `Domain.__setitem__` does not). -/
theorem c3_amended (fuel : Nat) (s : Store) (key : Key) (h : '@' ∉ key) :
    setitemDom fuel s key .noneV = .ok s := by
  simp [setitemDom, h, setitemB]

/-- Witness for C3 amended: a `None` write to `pore.x` leaves the 9-pore
store unchanged. -/
theorem c3_witness : setitemDom 5 sNet kPoreX .noneV = .ok sNet :=
  c3_amended 5 sNet kPoreX (by decide)

/-! ## C4 (domain scatter/gather round trip) -/

/-- The 9-pore store after a first domain write of the non-boolean values
`a, b, c` to `pore.seed@left`: the full array holds them at the three masked
positions and the NaN seed everywhere else. -/
def s4n (a b c : Option Int) : Store :=
  ⟨sNet.data ++ [(kPoreSeed, .nums [a, b, c, none, none, none, none, none, none])], nameNet⟩

/-- As `s4n`, for boolean values: the auto-vivified seed is all-`False`. -/
def s4b (a b c : Bool) : Store :=
  ⟨sNet.data ++ [(kPoreSeed, .bools [a, b, c, false, false, false, false, false, false])],
   nameNet⟩

/-- C4: on the 9-pore store with `pore.left` true on indices 0, 1, 2,
writing any length-3 value `v` to `pore.seed@left` succeeds; reading
`pore.seed@left` back returns exactly `v`; and the full `pore.seed` array
holds `v` at the masked positions and the auto-vivified seed (NaN for
non-boolean `v`, `False` for boolean `v`) at every position never written. -/
theorem c4_roundtrip :
    (∀ a b c : Option Int,
      setitemDom 10 sNet kPoreSeedLeft (.arrV (.nums [a, b, c])) = .ok (s4n a b c) ∧
      getitemDom 10 (s4n a b c) kPoreSeedLeft = .ok (.one (.nums [a, b, c]), s4n a b c) ∧
      getitemDom 10 (s4n a b c) kPoreSeed =
        .ok (.one (.nums [a, b, c, none, none, none, none, none, none]), s4n a b c)) ∧
    (∀ a b c : Bool,
      setitemDom 10 sNet kPoreSeedLeft (.arrV (.bools [a, b, c])) = .ok (s4b a b c) ∧
      getitemDom 10 (s4b a b c) kPoreSeedLeft = .ok (.one (.bools [a, b, c]), s4b a b c) ∧
      getitemDom 10 (s4b a b c) kPoreSeed =
        .ok (.one (.bools [a, b, c, false, false, false, false, false, false]), s4b a b c)) :=
  ⟨fun _ _ _ => ⟨rfl, rfl, rfl⟩, fun _ _ _ => ⟨rfl, rfl, rfl⟩⟩

/-! ## C2 (read path: self-label vivification and group collection) -/

/-- `sBob` after both self-labels have been vivified: the fixpoint of the
retry loop of `Base2.__getitem__` for keys like `pore.bob.x`. -/
def sBobV : Store :=
  ⟨[(coordsK, .nums [some 0, some 0]), (connsK, .nums [some 0]),
    (kPoreBob, .bools [true, true]), (kThroatBob, .bools [true])], nameBob⟩

/-- Reading `pore.bob.x` on `sBob` vivifies the self-labels and retries. -/
theorem getitemB_bobx_start (n : Nat) :
    getitemB (n + 1) sBob kPoreBobX = getitemB n sBobV kPoreBobX := rfl

/-- One retry step on the vivified store re-vivifies the same labels and
recurses on the same key. -/
theorem getitemB_bobx_step (n : Nat) :
    getitemB (n + 1) sBobV kPoreBobX = getitemB n sBobV kPoreBobX := rfl

/-- The retry loop for `pore.bob.x` never terminates: every fuel budget is
exhausted. -/
theorem getitemB_bobx_all (n : Nat) :
    getitemB n sBobV kPoreBobX = .error .recursionLimit := by
  induction n with
  | zero => rfl
  | succ k ih => rw [getitemB_bobx_step]; exact ih

/-- C2 counterexample: on a store named `bob`, reading the absent key
`pore.bob.x` (whose remainder after the first dot is `bob.x`, not `bob`,
but whose second dot-segment is `bob`) does not fail with
`KeyNotFoundError` as the claim requires: `key.split('.')[1] == self.name`
triggers the vivify-and-retry loop, which recurses until the recursion
limit. -/
theorem c2_counterexample :
    getitemB 100 sBob kPoreBobX = .error .recursionLimit := by
  rw [show (100 : Nat) = 99 + 1 from rfl, getitemB_bobx_start]
  exact getitemB_bobx_all 99

theorem pk_ne_tk (a b : Key) : poreChars ++ '.' :: a ≠ throatChars ++ '.' :: b := by
  intro h
  have h2 := congrArg (fun l => l.headD ' ') h
  simp [poreChars, throatChars] at h2

theorem throat_not_pref (b : Key) :
    throatChars.isPrefixOf (poreChars ++ '.' :: b) = false := rfl

theorem pore_not_pref (b : Key) :
    poreChars.isPrefixOf (throatChars ++ '.' :: b) = false := rfl

/-- Evaluating the `self['pore.'+self.name] = np.ones(self.Np, dtype=bool)`
write of the vivify branch: whatever branch of `__setitem__` applies
(exempt, broadcast with `np = 1`, or exact length), the stored array is
`List.replicate np true`. -/
theorem vivify_set_pore (d : List (Key × Arr)) (nm lab : Key) (np : Nat)
    (hc : countD d poreChars = some np) :
    setitemB ⟨d, nm⟩ (poreChars ++ '.' :: lab) (.arrV (.bools (List.replicate np true))) =
      .ok ⟨updateA d (poreChars ++ '.' :: lab) (.bools (List.replicate np true)), nm⟩ := by
  have hsp : splitFirst '.' (poreChars ++ '.' :: lab) = some (poreChars, lab) :=
    splitFirst_append lab (by decide)
  by_cases hex : poreChars ++ '.' :: lab = coordsK ∨ poreChars ++ '.' :: lab = connsK
  · simp [setitemB, hsp, hex]
  · by_cases h1 : np = 1
    · subst h1
      simp [setitemB, hsp, hex, hc, lenA, broadcastFill]
    · simp [setitemB, hsp, hex, hc, lenA, h1]

/-- The `throat` counterpart of `vivify_set_pore`. -/
theorem vivify_set_throat (d : List (Key × Arr)) (nm lab : Key) (nt : Nat)
    (hc : countD d throatChars = some nt) :
    setitemB ⟨d, nm⟩ (throatChars ++ '.' :: lab) (.arrV (.bools (List.replicate nt true))) =
      .ok ⟨updateA d (throatChars ++ '.' :: lab) (.bools (List.replicate nt true)), nm⟩ := by
  have hsp : splitFirst '.' (throatChars ++ '.' :: lab) = some (throatChars, lab) :=
    splitFirst_append lab (by decide)
  by_cases hex : throatChars ++ '.' :: lab = coordsK ∨ throatChars ++ '.' :: lab = connsK
  · simp [setitemB, hsp, hex]
  · by_cases h1 : nt = 1
    · subst h1
      simp [setitemB, hsp, hex, hc, lenA, broadcastFill]
    · simp [setitemB, hsp, hex, hc, lenA, h1]

/-- C2 amended, matching the code: the miss test is on the *second
dot-segment* `key.split('.')[1]`, not on the whole remainder after the
first dot.  (a) For a two-segment key `el.nm` equal to the store's name
(dot-free) with both counts established, the read vivifies both all-true
self-labels and returns the one for `el`.  (b)/(c) When the second segment
differs from the name, the read collects the stored keys extending
`key + '.'`: an empty collection fails with `KeyNotFoundError`, a non-empty
one is returned as the group mapping.  (For longer keys whose second
segment equals the name, the retry never terminates — the counterexample.) -/
theorem c2_amended :
    (∀ (d : List (Key × Arr)) (nm : Key) (np nt : Nat) (el : Key) (fuel : Nat),
      (el = poreChars ∨ el = throatChars) →
      '.' ∉ nm →
      countD d poreChars = some np →
      countD d throatChars = some nt →
      lookupA d (el ++ '.' :: nm) = none →
      getitemB (fuel + 2) ⟨d, nm⟩ (el ++ '.' :: nm) =
        .ok (.one (.bools (List.replicate (if el = poreChars then np else nt) true)),
          ⟨updateA (updateA d (poreChars ++ '.' :: nm) (.bools (List.replicate np true)))
            (throatChars ++ '.' :: nm) (.bools (List.replicate nt true)), nm⟩)) ∧
    (∀ (fuel : Nat) (s : Store) (key element pr : Key),
      splitFirst '.' key = some (element, pr) →
      lookupA s.data key = none →
      (splitAll '.' key).getD 1 [] ≠ s.name →
      s.data.filter (fun kv => (key ++ ['.']).isPrefixOf kv.1) = [] →
      getitemB (fuel + 1) s key = .error (.keyNotFound key)) ∧
    (∀ (fuel : Nat) (s : Store) (key element pr : Key) (kv : Key × Arr)
        (kvs : List (Key × Arr)),
      splitFirst '.' key = some (element, pr) →
      lookupA s.data key = none →
      (splitAll '.' key).getD 1 [] ≠ s.name →
      s.data.filter (fun kv => (key ++ ['.']).isPrefixOf kv.1) = kv :: kvs →
      getitemB (fuel + 1) s key = .ok (.grp (kv :: kvs), s)) := by
  refine ⟨?_, ?_, ?_⟩
  · rintro d nm np nt el fuel hel hdnm hcp hct hlk
    have hdotel : '.' ∉ el := by
      rcases hel with h | h <;> subst h <;> decide
    have hsplit : splitFirst '.' (el ++ '.' :: nm) = some (el, nm) :=
      splitFirst_append nm hdotel
    have hseg : (splitAll '.' (el ++ '.' :: nm)).getD 1 [] = nm := by
      rw [splitAll_append nm hdotel, splitAll_eq_single hdnm]
      rfl
    have hctu : countD (updateA d (poreChars ++ '.' :: nm)
        (Arr.bools (List.replicate np true))) throatChars = some nt := by
      rw [countD_updateA_not_pref (throat_not_pref nm)]
      exact hct
    rcases hel with h | h <;> subst h
    · have hlk2 : lookupA
          (updateA (updateA d (poreChars ++ '.' :: nm) (.bools (List.replicate np true)))
            (throatChars ++ '.' :: nm) (.bools (List.replicate nt true)))
          (poreChars ++ '.' :: nm) = some (.bools (List.replicate np true)) := by
        rw [lookupA_updateA_ne (pk_ne_tk nm nm), lookupA_updateA_self]
      simp only [getitemB, hsplit, hlk, hseg, hcp, eq_self_iff_true, if_true,
        vivify_set_pore d nm nm np hcp, hctu, vivify_set_throat _ nm nm nt hctu, hlk2]
    · have hlk2 : lookupA
          (updateA (updateA d (poreChars ++ '.' :: nm) (.bools (List.replicate np true)))
            (throatChars ++ '.' :: nm) (.bools (List.replicate nt true)))
          (throatChars ++ '.' :: nm) = some (.bools (List.replicate nt true)) :=
        lookupA_updateA_self
      have hne : (throatChars = poreChars) = False := eq_false (by decide)
      simp only [getitemB, hsplit, hlk, hseg, hcp, eq_self_iff_true, if_true,
        vivify_set_pore d nm nm np hcp, hctu, vivify_set_throat _ nm nm nt hctu, hlk2,
        hne, if_false]
  · intro fuel s key element pr hsplit hlk hseg hfilter
    simp only [getitemB, hsplit, hlk]
    rw [if_neg hseg]
    simp only [hfilter]
  · intro fuel s key element pr kv kvs hsplit hlk hseg hfilter
    simp only [getitemB, hsplit, hlk]
    rw [if_neg hseg]
    simp only [hfilter]

/-- The key `pore.g`. -/
def kPoreG : Key := ['p', 'o', 'r', 'e', '.', 'g']

/-- The key `pore.g.a`. -/
def kPoreGA : Key := ['p', 'o', 'r', 'e', '.', 'g', '.', 'a']

/-- A store named `net` with one pore and a nested leaf `pore.g.a`. -/
def sGrp : Store := ⟨[(coordsK, .nums [some 0]), (kPoreGA, .nums [some 1])], nameNet⟩

/-- Witness for C2 amended: the self-label read on `sBob` (named `bob`)
vivifies and returns two `True`s; a miss with no group fails with
`KeyNotFoundError`; a miss with a nested leaf returns the group mapping. -/
theorem c2_amended_witness :
    getitemB 2 sBob kPoreBob = .ok (.one (.bools [true, true]), sBobV) ∧
    getitemB 1 sNet kPoreSeed = .error (.keyNotFound kPoreSeed) ∧
    getitemB 1 sGrp kPoreG = .ok (.grp [(kPoreGA, .nums [some 1])], sGrp) :=
  ⟨c2_amended.1 sBob.data nameBob 2 1 poreChars 0 (Or.inl rfl) (by decide)
      (by decide) (by decide) (by decide),
   c2_amended.2.1 0 sNet kPoreSeed poreChars ['s', 'e', 'e', 'd'] (by decide)
      (by decide) (by decide) (by decide),
   c2_amended.2.2 0 sGrp kPoreG poreChars ['g'] (kPoreGA, .nums [some 1]) []
      (by decide) (by decide) (by decide) (by decide)⟩

/-! ## C5 (the length invariant I2) -/

/-- The spec's invariant I2: every stored leaf array whose key starts with
`pore` or `throat`, other than the exempt `pore.coords` / `throat.conns`,
has leading length equal to the count `_count` derives for that element. -/
def I2 (s : Store) : Prop :=
  ∀ kv ∈ s.data, ∀ el ∈ [poreChars, throatChars],
    el.isPrefixOf kv.1 = true → kv.1 ≠ coordsK → kv.1 ≠ connsK →
    countD s.data el = some (lenA kv.2)

instance (s : Store) : Decidable (I2 s) := by
  unfold I2
  infer_instance

/-- C5 counterexample: the invariant is *not* preserved by every store
operation.  Writing `pore.coords` (length 2), then `pore.x` (length 2),
then re-writing the exempt `pore.coords` with length 3 all succeed, but the
final store violates I2: `_count('pore')` now reads 3 off the first entry
`pore.coords`, while the non-exempt `pore.x` still has length 2. -/
theorem c5_counterexample :
    ((setitemB ⟨[], nameNet⟩ coordsK (.arrV (.nums [some 0, some 0]))).bind fun s1 =>
      (setitemB s1 kPoreX (.arrV (.nums [some 1, some 1]))).bind fun s2 =>
        setitemB s2 coordsK (.arrV (.nums [some 0, some 0, some 0]))) =
      .ok ⟨[(coordsK, .nums [some 0, some 0, some 0]),
            (kPoreX, .nums [some 1, some 1])], nameNet⟩ ∧
    ¬ I2 ⟨[(coordsK, .nums [some 0, some 0, some 0]),
           (kPoreX, .nums [some 1, some 1])], nameNet⟩ := by
  constructor
  · decide
  · decide

theorem lenA_broadcastFill (n : Nat) (a : Arr) : lenA (broadcastFill n a) = n := by
  cases a <;> simp [broadcastFill, lenA]

/-- Two element prefixes from `{pore, throat}` matching the same
well-formed key must coincide. -/
theorem el_eq_of_pref {el element : Key} (pr : Key)
    (hel : element = poreChars ∨ element = throatChars)
    (hel' : el = poreChars ∨ el = throatChars)
    (hp : el.isPrefixOf (element ++ '.' :: pr) = true) : el = element := by
  rcases hel with h | h <;> rcases hel' with h' | h' <;> subst h <;> subst h'
  · rfl
  · rw [throat_not_pref] at hp; cases hp
  · rw [pore_not_pref] at hp; cases hp
  · rfl

/-- Updating a non-exempt key with an array of the already-established
length preserves I2. -/
theorem I2_update (d : List (Key × Arr)) (nm element pr : Key) (b : Arr) (n : Nat)
    (hel : element = poreChars ∨ element = throatChars)
    (hI : I2 ⟨d, nm⟩)
    (hcnt : countD d element = some n)
    (hlen : lenA b = n) :
    I2 ⟨updateA d (element ++ '.' :: pr) b, nm⟩ := by
  intro kv hkv el helmem hpref hne1 hne2
  have hel' : el = poreChars ∨ el = throatChars := by simpa using helmem
  by_cases helq : el = element
  · subst helq
    have hcnt' : countD (updateA d (el ++ '.' :: pr) b) el = some n :=
      countD_updateA_pref_some isPrefixOf_append_self hcnt hlen
    rcases mem_updateA hkv with h | h
    · rw [h]
      simpa [hlen] using hcnt'
    · have hIr := hI kv h el helmem hpref hne1 hne2
      rw [hcnt] at hIr
      rw [hcnt', hIr]
  · have hnp : el.isPrefixOf (element ++ '.' :: pr) = false := by
      rcases hel with h | h <;> rcases hel' with h' | h' <;> subst h <;> subst h'
      · exact absurd rfl helq
      · exact throat_not_pref pr
      · exact pore_not_pref pr
      · exact absurd rfl helq
    have hcnt' : countD (updateA d (element ++ '.' :: pr) b) el = countD d el :=
      countD_updateA_not_pref hnp
    rcases mem_updateA hkv with h | h
    · rw [h] at hpref
      simp only at hpref
      rw [hnp] at hpref
      cases hpref
    · rw [hcnt']
      exact hI kv h el helmem hpref hne1 hne2

/-- First write under an element with no established count: the appended
entry seeds the count with its own length, preserving I2. -/
theorem I2_append_new (d : List (Key × Arr)) (nm element pr : Key) (b : Arr)
    (hel : element = poreChars ∨ element = throatChars)
    (hI : I2 ⟨d, nm⟩)
    (hcnt : countD d element = none) :
    I2 ⟨updateA d (element ++ '.' :: pr) b, nm⟩ := by
  have hlk : lookupA d (element ++ '.' :: pr) = none := by
    cases hl : lookupA d (element ++ '.' :: pr) with
    | none => rfl
    | some x =>
      exact absurd hcnt
        (countD_ne_none_of_mem (lookupA_some_mem hl) isPrefixOf_append_self)
  intro kv hkv el helmem hpref hne1 hne2
  have hel' : el = poreChars ∨ el = throatChars := by simpa using helmem
  rw [updateA_of_lookupA_none hlk] at hkv ⊢
  rcases List.mem_append.mp hkv with h | h
  · exact countD_append_some (hI kv h el helmem hpref hne1 hne2)
  · have hk : kv = (element ++ '.' :: pr, b) := by simpa using h
    subst hk
    have helq : el = element := el_eq_of_pref pr hel hel' hpref
    subst helq
    rw [countD_append_none hcnt]
    simp [countD, isPrefixOf_append_self]

/-- I2 preservation for the array branch of `Base2.__setitem__` on a
non-exempt key. -/
theorem setB_arr_pres (s : Store) (key : Key) (a : Arr) (s' : Store)
    (hI : I2 s) (hc : key ≠ coordsK) (hn : key ≠ connsK)
    (h : setitemB s key (.arrV a) = .ok s') : I2 s' := by
  obtain ⟨d, nm⟩ := s
  simp only [setitemB] at h
  cases hsp : splitFirst '.' key with
  | none => rw [hsp] at h; cases h
  | some ep =>
    obtain ⟨element, pr⟩ := ep
    simp only [hsp] at h
    by_cases hel : element = poreChars ∨ element = throatChars
    · rw [if_pos hel] at h
      have hexempt : ¬(key = coordsK ∨ key = connsK) := by
        rintro (hh | hh)
        · exact hc hh
        · exact hn hh
      rw [if_neg hexempt] at h
      have hkey : key = element ++ '.' :: pr := splitFirst_join hsp
      subst hkey
      cases hcnt : countD d element with
      | none =>
        simp only [hcnt] at h
        cases h
        exact I2_append_new d nm element pr a hel hI hcnt
      | some n =>
        simp only [hcnt] at h
        by_cases h1 : lenA a = 1
        · rw [if_pos h1] at h
          cases h
          exact I2_update d nm element pr _ n hel hI hcnt (lenA_broadcastFill n a)
        · rw [if_neg h1] at h
          by_cases h2 : lenA a = n
          · rw [if_pos h2] at h
            cases h
            exact I2_update d nm element pr a n hel hI hcnt h2
          · rw [if_neg h2] at h
            cases h
    · rw [if_neg hel] at h
      cases h

theorem inner_ne_coords {key k : Key} (hdot : '.' ∈ key) :
    key ++ '.' :: k ≠ coordsK := by
  intro h
  have h1 : 2 ≤ (key ++ '.' :: k).count '.' := by
    rw [List.count_append]
    have h2 : 1 ≤ key.count '.' := List.count_pos_iff.mpr hdot
    have h3 : 1 ≤ ('.' :: k).count '.' := by simp [List.count_cons]
    omega
  rw [h] at h1
  have : coordsK.count '.' = 1 := by decide
  omega

theorem inner_ne_conns {key k : Key} (hdot : '.' ∈ key) :
    key ++ '.' :: k ≠ connsK := by
  intro h
  have h1 : 2 ≤ (key ++ '.' :: k).count '.' := by
    rw [List.count_append]
    have h2 : 1 ≤ key.count '.' := List.count_pos_iff.mpr hdot
    have h3 : 1 ≤ ('.' :: k).count '.' := by simp [List.count_cons]
    omega
  rw [h] at h1
  have : connsK.count '.' = 1 := by decide
  omega

mutual
/-- I2 preservation for `Base2.__setitem__` on a non-exempt key, any value. -/
theorem setB_pres (v : Value) (s : Store) (key : Key) (s' : Store)
    (hI : I2 s) (hc : key ≠ coordsK) (hn : key ≠ connsK)
    (h : setitemB s key v = .ok s') : I2 s' :=
  match v, h with
  | .noneV, h => by
    simp only [setitemB] at h
    cases h
    exact hI
  | .arrV a, h => setB_arr_pres s key a s' hI hc hn h
  | .dictV kvs, h => by
    simp only [setitemB] at h
    cases hsp : splitFirst '.' key with
    | none => rw [hsp] at h; cases h
    | some ep =>
      simp only [hsp] at h
      have hdot : '.' ∈ key := by
        rw [splitFirst_join hsp]
        exact List.mem_append_right _ (List.mem_cons_self _ _)
      exact setBL_pres kvs s key s' hI hdot h
/-- I2 preservation for the dict-decomposition loop: every generated leaf
key has at least two dots, hence is never exempt. -/
theorem setBL_pres (kvs : ValList) (s : Store) (key : Key) (s' : Store)
    (hI : I2 s) (hdot : '.' ∈ key)
    (h : setitemBList s key kvs = .ok s') : I2 s' :=
  match kvs, h with
  | .nil, h => by
    simp only [setitemBList] at h
    cases h
    exact hI
  | .cons k v rest, h => by
    simp only [setitemBList] at h
    cases hstep : setitemB s (key ++ '.' :: k) v with
    | error e => rw [hstep] at h; cases h
    | ok s1 =>
      simp only [hstep] at h
      have hI1 := setB_pres v s (key ++ '.' :: k) s1 hI
        (inner_ne_coords hdot) (inner_ne_conns hdot) hstep
      exact setBL_pres rest s1 key s' hI1 hdot h
end

/-- C5 amended: every `Base2.__setitem__` on a *non-exempt* key preserves
I2 (re-writing the exempt `pore.coords`/`throat.conns` with a different
leading length can change the derived count and break it — the
counterexample). -/
theorem c5_amended (s : Store) (key : Key) (v : Value) (s' : Store)
    (hI : I2 s) (hc : key ≠ coordsK) (hn : key ≠ connsK)
    (h : setitemB s key v = .ok s') : I2 s' :=
  setB_pres v s key s' hI hc hn h

/-- Witness for C5 amended: a length-9 write of `pore.x` on the 9-pore
store keeps I2. -/
theorem c5_witness :
    I2 ⟨sNet.data ++ [(kPoreX, .nums (List.replicate 9 (some 2)))], nameNet⟩ :=
  c5_amended sNet kPoreX (.arrV (.nums (List.replicate 9 (some 2))))
    ⟨sNet.data ++ [(kPoreX, .nums (List.replicate 9 (some 2)))], nameNet⟩
    (by decide) (by decide) (by decide) (by decide)

/-! ## C10 (throat auto-vivification is sized with Np) -/

/-- The key `throat.lab`. -/
def kThroatLab : Key := ['t', 'h', 'r', 'o', 'a', 't', '.', 'l', 'a', 'b']

/-- The key `throat.x`. -/
def kThroatX : Key := ['t', 'h', 'r', 'o', 'a', 't', '.', 'x']

/-- The domain-qualified key `throat.x@lab`. -/
def kThroatXLab : Key := ['t', 'h', 'r', 'o', 'a', 't', '.', 'x', '@', 'l', 'a', 'b']

/-- A store with 1 pore, 2 throats, and a throat label `throat.lab`. -/
def sNp1 : Store :=
  ⟨[(coordsK, .nums [some 0]), (connsK, .nums [some 0, some 1]),
    (kThroatLab, .bools [true, false])], nameNet⟩

/-- C10 counterexample: with `Np = 1 ≠ Nt = 2`, the domain-qualified write
`throat.x@lab` does *not* raise a wrong-length error: the length-`Np` temp
array falls into the scalar-broadcast branch of `Base2.__setitem__`, is
broadcast to length `Nt`, and the write succeeds. -/
theorem c10_counterexample :
    countD sNp1.data poreChars = some 1 ∧
    countD sNp1.data throatChars = some 2 ∧
    setitemDom 5 sNp1 kThroatXLab (.arrV (.nums [some 5])) =
      .ok ⟨sNp1.data ++ [(kThroatX, .nums [some 5, none])], nameNet⟩ := by
  refine ⟨by decide, by decide, by decide⟩

/-- C10 amended: a domain-qualified write to an absent throat property
allocates the temp array with leading length `Np` (the pore count); when
`Np` is neither 1 nor `Nt`, storing it raises the wrong-length
`ShapeError`; when `Np = 1` it broadcasts to `Nt` and succeeds (the
counterexample). -/
theorem c10_amended (fuel : Nat) (s : Store) (pr dm : Key) (xs : List (Option Int))
    (np nt : Nat) (la : Arr)
    (hprAt : '@' ∉ pr) (hdmAt : '@' ∉ dm) (hdmDot : '.' ∉ dm)
    (hnp : countD s.data poreChars = some np)
    (hnt : countD s.data throatChars = some nt)
    (hlab : lookupA s.data (throatChars ++ '.' :: dm) = some la)
    (hmiss : lookupA s.data (throatChars ++ '.' :: pr) = none)
    (hseg : (splitAll '.' (throatChars ++ '.' :: pr)).getD 1 [] ≠ s.name)
    (hgrp : s.data.filter
      (fun kv => ((throatChars ++ '.' :: pr) ++ ['.']).isPrefixOf kv.1) = [])
    (hn1 : np ≠ 1) (hnn : np ≠ nt)
    (hxc : throatChars ++ '.' :: pr ≠ connsK) :
    setitemDom (fuel + 1) s ((throatChars ++ '.' :: pr) ++ '@' :: dm)
      (.arrV (.nums xs)) = .error (.shape (throatChars ++ '.' :: pr)) := by
  have hdotTh : '.' ∉ throatChars := by decide
  have hbNoAt : '@' ∉ throatChars ++ '.' :: pr := by
    intro hm
    rcases List.mem_append.mp hm with h | h
    · exact absurd h (by decide)
    · rcases List.mem_cons.mp h with h | h
      · exact absurd h (by decide)
      · exact hprAt h
  have hAtKey : '@' ∈ (throatChars ++ '.' :: pr) ++ '@' :: dm :=
    List.mem_append_right _ (List.mem_cons_self _ _)
  have hsa : splitAll '@' ((throatChars ++ '.' :: pr) ++ '@' :: dm) =
      [throatChars ++ '.' :: pr, dm] := by
    rw [splitAll_append dm hbNoAt, splitAll_eq_single hdmAt]
  have h5 : getitemB (fuel + 1) s (throatChars ++ '.' :: dm) = .ok (.one la, s) := by
    simp only [getitemB, splitFirst_append dm hdotTh, hlab]
  have h6 : getitemDom (fuel + 1) s (throatChars ++ '.' :: pr) =
      .error (.keyNotFound (throatChars ++ '.' :: pr)) := by
    simp only [getitemDom, if_neg hbNoAt, getitemB, splitFirst_append pr hdotTh, hmiss]
    rw [if_neg hseg]
    simp only [hgrp]
  have hexempt : ¬(throatChars ++ '.' :: pr = coordsK ∨
      throatChars ++ '.' :: pr = connsK) := by
    rintro (hh | hh)
    · exact pk_ne_tk ['c', 'o', 'o', 'r', 'd', 's'] pr hh.symm
    · exact hxc hh
  have h8 : setitemB s (throatChars ++ '.' :: pr)
      (.arrV (.nums (List.replicate np none))) =
      .error (.shape (throatChars ++ '.' :: pr)) := by
    simp only [setitemB, splitFirst_append pr hdotTh, or_true, if_true]
    rw [if_neg hexempt]
    simp only [hnt, lenA, List.length_replicate]
    rw [if_neg hn1, if_neg hnn]
  simp only [setitemDom, if_pos hAtKey, hsa, List.getD_cons_zero, List.getD_cons_succ,
    splitFirst_append pr hdotTh, lastSeg_of_not_mem hdmDot, h5, h6, hnp, h8]

/-- A store with 3 pores, 2 throats, and the throat label `throat.lab`. -/
def sNp3 : Store :=
  ⟨[(coordsK, .nums [some 0, some 0, some 0]), (connsK, .nums [some 0, some 1]),
    (kThroatLab, .bools [true, false])], nameNet⟩

/-- Witness for C10 amended: with `Np = 3`, `Nt = 2`, the write
`throat.x@lab` raises the wrong-length `ShapeError`. -/
theorem c10_amended_witness :
    setitemDom 5 sNp3 kThroatXLab (.arrV (.nums [some 5])) = .error (.shape kThroatX) :=
  c10_amended 4 sNp3 ['x'] ['l', 'a', 'b'] [some 5] 3 2 (.bools [true, false])
    (by decide) (by decide) (by decide) (by decide) (by decide) (by decide)
    (by decide) (by decide) (by decide) (by decide) (by decide) (by decide)

/-! ## C1 (lazy fan-out of run_model) -/

theorem isPrefixOf_exists {a : Key} : ∀ {k : Key}, a.isPrefixOf k = true → ∃ t, a ++ t = k := by
  induction a with
  | nil => exact fun {k} _ => ⟨k, rfl⟩
  | cons x xs ih =>
    intro k h
    cases k with
    | nil => simp [List.isPrefixOf] at h
    | cons y ys =>
      simp only [List.isPrefixOf, Bool.and_eq_true, beq_iff_eq] at h
      obtain ⟨hxy, hrest⟩ := h
      obtain ⟨t, ht⟩ := ih hrest
      subst hxy
      exact ⟨t, by rw [List.cons_append, ht]⟩

theorem splitFirst_some_of_mem {c : Char} {l : List Char} (h : c ∈ l) :
    ∃ a b, splitFirst c l = some (a, b) := by
  cases hs : splitFirst c l with
  | none => exact absurd h (not_mem_of_splitFirst hs)
  | some p =>
    obtain ⟨a, b⟩ := p
    exact ⟨a, b, rfl⟩

theorem splitFirst_of_pref {c : Char} {p k bp rp : Key} (t : Key)
    (hsp : splitFirst c p = some (bp, rp)) (hk : p ++ t = k) :
    splitFirst c k = some (bp, rp ++ t) := by
  have hb : c ∉ bp := splitFirst_fst_not_mem hsp
  have hpj : p = bp ++ c :: rp := splitFirst_join hsp
  subst hk
  rw [hpj, List.append_assoc, List.cons_append]
  exact splitFirst_append _ hb

/-- A well-formed registry key: either unqualified, or with a single `@`
whose domain part contains no further `@` or `.` (exactly the keys
`add_model` produces from dot-free trailing domain segments). -/
def goodQual (k : Key) : Bool :=
  match splitFirst '@' k with
  | none => true
  | some (_, dm) => !(decide ('@' ∈ dm)) && !(decide ('.' ∈ dm))

/-- A successful domain-mode `run_model` leaves the registry unchanged and
reports exactly the qualified name it looked up and executed. -/
theorem runModelDom_ok {fuel : Nat} {d : DStore} {p dom : Key} {r : DStore × List Key}
    (h : runModelDom fuel d p dom = .ok r) :
    r.1.models = d.models ∧
    ∃ element prop,
      splitFirst '.' ((splitAll '@' p).getD 0 []) = some (element, prop) ∧
      r.2 = [element ++ '.' :: prop ++ '@' :: lastSeg '.' dom] := by
  simp only [runModelDom] at h
  split at h
  · cases h
  next element prop heq =>
    split at h
    · cases h
    next e hlook =>
      split at h
      · cases h
      next sA hstep =>
        split at h
        · cases h
        · cases h
        next full sB hfull =>
          split at h
          · cases h
          · cases h
          next locs sC hlocs =>
            split at h
            · cases h
            next newfull hscat =>
              cases h
              exact ⟨rfl, element, prop, heq, rfl⟩

/-- `fanOut` never touches the registry. -/
theorem fanOut_models {fuel : Nat} {p : Key} :
    ∀ {ks : List Key} {d : DStore} {r : DStore × List Key},
      fanOut fuel d p ks = .ok r → r.1.models = d.models := by
  intro ks
  induction ks with
  | nil =>
    intro d r h
    simp only [fanOut] at h
    cases h
    rfl
  | cons k rest ih =>
    intro d r h
    simp only [fanOut] at h
    by_cases hpk : p.isPrefixOf k = true
    · rw [if_pos hpk] at h
      cases hrm : runModelDom fuel d p (lastSeg '@' k) with
      | error e => rw [hrm] at h; cases h
      | ok r1 =>
        obtain ⟨d1, t1⟩ := r1
        simp only [hrm] at h
        cases hfo : fanOut fuel d1 p rest with
        | error e => rw [hfo] at h; cases h
        | ok r2 =>
          obtain ⟨d2, t2⟩ := r2
          simp only [hfo] at h
          cases h
          calc d2.models = d1.models := ih hfo
            _ = d.models := (runModelDom_ok hrm).1
    · rw [if_neg hpk] at h
      exact ih h

/-- The key a matched fan-out iteration executes is the matched registered
key itself, provided that key is well formed. -/
theorem runModelDom_trace_eq {fuel : Nat} {d : DStore} {p k bp rp : Key}
    {r : DStore × List Key}
    (hsp : splitFirst '@' p = some (bp, rp))
    (hgk : goodQual k = true)
    (hpk : p.isPrefixOf k = true)
    (h : runModelDom fuel d p (lastSeg '@' k) = .ok r) :
    r.2 = [k] := by
  obtain ⟨t, htk⟩ := isPrefixOf_exists hpk
  have hsfk : splitFirst '@' k = some (bp, rp ++ t) := splitFirst_of_pref t hsp htk
  have hgk2 : '@' ∉ rp ++ t ∧ '.' ∉ rp ++ t := by
    unfold goodQual at hgk
    rw [hsfk] at hgk
    simpa using hgk
  have hkj : k = bp ++ '@' :: (rp ++ t) := splitFirst_join hsfk
  have hlsk : lastSeg '@' k = rp ++ t := by
    rw [hkj, lastSeg_append _ (splitFirst_fst_not_mem hsfk)]
    exact lastSeg_of_not_mem hgk2.1
  have hpg : (splitAll '@' p).getD 0 [] = bp := by
    rw [splitFirst_join hsp, splitAll_append _ (splitFirst_fst_not_mem hsp)]
    rfl
  obtain ⟨-, element, prop, heq, ht⟩ := runModelDom_ok h
  rw [hpg] at heq
  have hbp : bp = element ++ '.' :: prop := splitFirst_join heq
  rw [ht, hlsk, lastSeg_of_not_mem hgk2.2, ← hbp, ← hkj]

/-- On success, the fan-out loop executes exactly the registered keys that
extend the called property name, in order. -/
theorem fanOut_trace {fuel : Nat} {p bp rp : Key}
    (hsp : splitFirst '@' p = some (bp, rp)) :
    ∀ {ks : List Key} {d : DStore} {r : DStore × List Key},
      (∀ k ∈ ks, goodQual k = true) →
      fanOut fuel d p ks = .ok r →
      r.2 = ks.filter (fun k => p.isPrefixOf k) := by
  intro ks
  induction ks with
  | nil =>
    intro d r hg h
    simp only [fanOut] at h
    cases h
    rfl
  | cons k rest ih =>
    intro d r hg h
    simp only [fanOut] at h
    by_cases hpk : p.isPrefixOf k = true
    · rw [if_pos hpk] at h
      cases hrm : runModelDom fuel d p (lastSeg '@' k) with
      | error e => rw [hrm] at h; cases h
      | ok r1 =>
        obtain ⟨d1, t1⟩ := r1
        simp only [hrm] at h
        cases hfo : fanOut fuel d1 p rest with
        | error e => rw [hfo] at h; cases h
        | ok r2 =>
          obtain ⟨d2, t2⟩ := r2
          simp only [hfo] at h
          cases h
          have ht1 : t1 = [k] :=
            runModelDom_trace_eq hsp (hg k (List.mem_cons_self _ _)) hpk hrm
          have ht2 : t2 = rest.filter (fun k => p.isPrefixOf k) :=
            ih (fun k2 h2 => hg k2 (List.mem_cons_of_mem _ h2)) hfo
          rw [List.filter_cons_of_pos hpk]
          simp [ht1, ht2]
    · rw [if_neg hpk] at h
      have hpkf : p.isPrefixOf k = false := Bool.eq_false_iff.mpr hpk
      rw [List.filter_cons_of_neg (by simp [hpkf])]
      exact ih (fun k2 h2 => hg k2 (List.mem_cons_of_mem _ h2)) h

/-- C1 amended: the lazy fan-out requires the called `propname` itself to
contain `@`; on success, the executed qualified names are exactly the
registered ones extending `propname`, in registration order.  (A bare
propname with only `@`-qualified entries raises the missing-model
`KeyError` instead — the counterexample.) -/
theorem c1_amended (fuel : Nat) (d : DStore) (p : Key) (t : List Key)
    (hp : '@' ∈ p)
    (hgood : ∀ k ∈ d.models.map Prod.fst, goodQual k = true)
    (h : (run_model fuel d p none).map Prod.snd = .ok t) :
    t = (d.models.map Prod.fst).filter (fun k => p.isPrefixOf k) := by
  obtain ⟨bp, rp, hsp⟩ := splitFirst_some_of_mem hp
  simp only [run_model, if_pos hp] at h
  cases hfo : fanOut fuel d p (d.models.map Prod.fst) with
  | error e => rw [hfo] at h; cases h
  | ok r =>
    rw [hfo] at h
    simp only [Except.map] at h
    cases h
    exact fanOut_trace hsp hgood hfo

/-- A model that ignores its inputs and returns a fixed array. -/
def mConst (v : Arr) : Store → Option Key → Arr := fun _ _ => v

/-- The registration mode tag `normal`. -/
def modeNormal : Key := ['n', 'o', 'r', 'm', 'a', 'l']

/-- A registry on the 9-pore store with a single domain-qualified model
`pore.seed@left` (and no bare `pore.seed` entry). -/
def dC1 : DStore := ⟨sNet, [(kPoreSeedLeft, ⟨mConst (.nums [some 1]), modeNormal⟩)]⟩

/-- C1 counterexample: with only the `@`-qualified entry `pore.seed@left`
registered, calling `run_model` with the bare name `pore.seed` and
`domain=None` does not fan out: it takes the unqualified branch, misses the
registry, and raises (`self.models[propname]` → `KeyError`), executing
nothing. -/
theorem c1_counterexample :
    '@' ∉ kPoreSeed ∧
    (splitAll '@' kPoreSeedLeft).getD 0 [] = kPoreSeed ∧
    run_model 10 dC1 kPoreSeed none = .error (.modelNotFound kPoreSeed) :=
  ⟨by decide, rfl, rfl⟩

/-- Witness for C1 amended: calling with the full `pore.seed@left` runs
exactly that registered model. -/
theorem c1_amended_witness :
    [kPoreSeedLeft] =
      (dC1.models.map Prod.fst).filter (fun k => kPoreSeedLeft.isPrefixOf k) :=
  c1_amended 10 dC1 kPoreSeedLeft [kPoreSeedLeft] (by decide) (by decide) (by rfl)

/-! ## C6 (regenerate_models ordering) -/

theorem isPrefixOf_refl (a : Key) : a.isPrefixOf a = true := by
  have h := @isPrefixOf_append_self a []
  rwa [List.append_nil] at h

/-- Any successful `run_model` call leaves the registry unchanged. -/
theorem run_model_models {fuel : Nat} {d : DStore} {p : Key} {dom : Option Key}
    {r : DStore × List Key} (h : run_model fuel d p dom = .ok r) :
    r.1.models = d.models := by
  cases dom with
  | some dm => exact (runModelDom_ok h).1
  | none =>
    simp only [run_model] at h
    by_cases hat : '@' ∈ p
    · rw [if_pos hat] at h
      exact fanOut_models h
    · rw [if_neg hat] at h
      cases hsp : splitFirst '.' p with
      | none => rw [hsp] at h; cases h
      | some ep =>
        simp only [hsp] at h
        cases hlk : lookupA d.models p with
        | none => rw [hlk] at h; cases h
        | some e =>
          simp only [hlk] at h
          cases hset : setitemDom fuel d.s p (.arrV (e.model d.s none)) with
          | error er => rw [hset] at h; cases h
          | ok s' =>
            simp only [hset] at h
            cases h
            rfl

/-- When a key is in a duplicate-free list and no other member extends it,
filtering by that key's extensions gives exactly the singleton. -/
theorem filter_eq_singleton {k : Key} :
    ∀ {l : List Key}, l.Nodup → k ∈ l →
      (∀ k2 ∈ l, k.isPrefixOf k2 = true → k2 = k) →
      l.filter (fun x => k.isPrefixOf x) = [k] := by
  intro l
  induction l with
  | nil => intro _ hk; cases hk
  | cons x rest ih =>
    intro hnd hk huniq
    have hnd' := List.nodup_cons.mp hnd
    rcases List.mem_cons.mp hk with hx | hx
    · subst hx
      rw [List.filter_cons_of_pos (isPrefixOf_refl _)]
      have hrest : rest.filter (fun x => k.isPrefixOf x) = [] := by
        rw [List.filter_eq_nil_iff]
        intro x2 h2
        intro hpx
        have hx2 := huniq x2 (List.mem_cons_of_mem _ h2) (by simpa using hpx)
        subst hx2
        exact hnd'.1 h2
      rw [hrest]
    · have hpx : k.isPrefixOf x = false := by
        by_contra hc
        have hc' : k.isPrefixOf x = true := by
          cases hb : k.isPrefixOf x with
          | true => rfl
          | false => exact absurd hb hc
        have hxk := huniq x (List.mem_cons_self _ _) hc'
        subst hxk
        exact hnd'.1 hx
      rw [List.filter_cons_of_neg (by simp [hpx])]
      exact ih hnd'.2 hx (fun k2 h2 => huniq k2 (List.mem_cons_of_mem _ h2))

/-- On success, running the registered keys in order executes exactly that
key sequence, provided keys are duplicate-free, well formed, and no
`@`-qualified key is a proper string prefix of another registered key. -/
theorem regenList_trace (fuel : Nat) (m0 : List (Key × MEntry))
    (hnd : (m0.map Prod.fst).Nodup)
    (hgood : ∀ k ∈ m0.map Prod.fst, goodQual k = true)
    (hnest : ∀ k1 ∈ m0.map Prod.fst, ∀ k2 ∈ m0.map Prod.fst,
      '@' ∈ k1 → k1.isPrefixOf k2 = true → k2 = k1) :
    ∀ (ks : List Key) (d : DStore) (r : DStore × List Key),
      d.models = m0 →
      (∀ k ∈ ks, k ∈ m0.map Prod.fst) →
      regenList fuel d ks = .ok r →
      r.2 = ks := by
  intro ks
  induction ks with
  | nil =>
    intro d r hdm hks h
    simp only [regenList] at h
    cases h
    rfl
  | cons k rest ih =>
    intro d r hdm hks h
    simp only [regenList] at h
    cases hrm : run_model fuel d k none with
    | error e => rw [hrm] at h; cases h
    | ok r1 =>
      obtain ⟨d1, t1⟩ := r1
      simp only [hrm] at h
      cases hrl : regenList fuel d1 rest with
      | error e => rw [hrl] at h; cases h
      | ok r2 =>
        obtain ⟨d2, t2⟩ := r2
        simp only [hrl] at h
        cases h
        have hkm : k ∈ m0.map Prod.fst := hks k (List.mem_cons_self _ _)
        have hd1m : d1.models = m0 := by
          rw [← hdm]
          exact run_model_models hrm
        have ht2 : t2 = rest :=
          ih d1 (d2, t2) hd1m (fun k2 h2 => hks k2 (List.mem_cons_of_mem _ h2)) hrl
        have ht1 : t1 = [k] := by
          by_cases hat : '@' ∈ k
          · obtain ⟨bp, rp, hsp⟩ := splitFirst_some_of_mem hat
            simp only [run_model, if_pos hat] at hrm
            have htr : t1 = (d.models.map Prod.fst).filter (fun x => k.isPrefixOf x) :=
              fanOut_trace hsp (by rw [hdm]; exact hgood) hrm
            rw [htr, hdm]
            exact filter_eq_singleton hnd hkm
              (fun k2 h2 hp => hnest k hkm k2 h2 hat hp)
          · simp only [run_model, if_neg hat] at hrm
            cases hsp : splitFirst '.' k with
            | none => rw [hsp] at hrm; cases hrm
            | some ep =>
              simp only [hsp] at hrm
              cases hlk : lookupA d.models k with
              | none => rw [hlk] at hrm; cases hrm
              | some e =>
                simp only [hlk] at hrm
                cases hset : setitemDom fuel d.s k (.arrV (e.model d.s none)) with
                | error er => rw [hset] at hrm; cases hrm
                | ok s' =>
                  simp only [hset] at hrm
                  cases hrm
                  rfl
        rw [ht1, ht2]
        rfl

/-- C6 amended: `regenerate_models` iterates the registered qualified names
in insertion order; an `@`-containing name fans out to every registered
name it string-prefixes, so when the registry is duplicate-free, well
formed, and no `@`-qualified name is a proper prefix of another, each name
is executed exactly once, in registration order.  (With prefix-nested
names, the nested one is executed more than once — the counterexample.) -/
theorem c6_amended (fuel : Nat) (d : DStore) (t : List Key)
    (hnd : (d.models.map Prod.fst).Nodup)
    (hgood : ∀ k ∈ d.models.map Prod.fst, goodQual k = true)
    (hnest : ∀ k1 ∈ d.models.map Prod.fst, ∀ k2 ∈ d.models.map Prod.fst,
      '@' ∈ k1 → k1.isPrefixOf k2 = true → k2 = k1)
    (h : (regenerate_models fuel d).map Prod.snd = .ok t) :
    t = d.models.map Prod.fst := by
  cases hr : regenerate_models fuel d with
  | error e => rw [hr] at h; cases h
  | ok r =>
    rw [hr] at h
    simp only [Except.map] at h
    cases h
    exact regenList_trace fuel d.models hnd hgood hnest (d.models.map Prod.fst) d r
      rfl (fun k hk => hk) hr

/-- The qualified key `pore.seed@l`, a proper string prefix of
`pore.seed@left`. -/
def kPoreSeedL : Key := ['p', 'o', 'r', 'e', '.', 's', 'e', 'e', 'd', '@', 'l']

/-- The key `pore.l`. -/
def kPoreL : Key := ['p', 'o', 'r', 'e', '.', 'l']

/-- A store with 3 pores, 1 throat, and the labels `pore.l` and `pore.left`. -/
def s3 : Store :=
  ⟨[(coordsK, .nums [some 0, some 0, some 0]), (connsK, .nums [some 0]),
    (kPoreL, .bools [true, false, false]),
    (kPoreLeft, .bools [false, true, true])], nameNet⟩

/-- A registry with the prefix-nested qualified names `pore.seed@l` and
`pore.seed@left` (domains `l` and `left`). -/
def d6 : DStore :=
  ⟨s3, [(kPoreSeedL, ⟨mConst (.nums [some 5]), modeNormal⟩),
        (kPoreSeedLeft, ⟨mConst (.nums [some 7]), modeNormal⟩)]⟩

/-- C6 counterexample: with the two registered names `pore.seed@l` and
`pore.seed@left`, `regenerate_models()` executes `pore.seed@left` twice
(once through the fan-out of `pore.seed@l`, whose string-prefix test
`item.startswith(propname)` also matches it, and once through its own
iteration), not exactly once. -/
theorem c6_counterexample :
    d6.models.map Prod.fst = [kPoreSeedL, kPoreSeedLeft] ∧
    kPoreSeedL ≠ kPoreSeedLeft ∧
    (regenerate_models 10 d6).map Prod.snd =
      .ok [kPoreSeedL, kPoreSeedLeft, kPoreSeedLeft] := by
  refine ⟨rfl, by decide, by decide⟩

/-- A registry with the single qualified name `pore.seed@left`. -/
def d7 : DStore := ⟨s3, [(kPoreSeedLeft, ⟨mConst (.nums [some 7]), modeNormal⟩)]⟩

/-- Witness for C6 amended: a prefix-free registry is regenerated exactly
once per key, in order. -/
theorem c6_amended_witness : [kPoreSeedLeft] = d7.models.map Prod.fst :=
  c6_amended 10 d7 [kPoreSeedLeft] (by decide) (by decide) (by decide) (by rfl)
